import Mathlib

/-!
Formal model of the update-reconciliation engine in `src/Rinstaller.py`.

Paths are represented by their forward-slash-separated component lists
(the source manipulates a path exclusively through `clientFile.split("/")`
and `os.path.join`, so a `List String` of components is an exact image of
that representation; `[]` denotes the instance root directory
`self.instanceLocation`).  Digests are the hex strings produced by
`_sha256File`; SHA-256 itself is treated as an abstract function parameter.
Python dicts are association lists in insertion order with unique keys.
The local filesystem is an explicit `FS` value; network transport is an
oracle function `fetch`/`download` supplied per run.
-/

namespace Rinstaller

/-- A relative path, as its list of slash-separated components. -/
abbrev Path := List String

/-- A hex digest string as produced by `_sha256File`. -/
abbrev Digest := String

/-- The action tags of class `_FileUpdateType` (NEW = 1, DELETE = 2, MODIFY = 3). -/
inductive FileUpdateType where
  | NEW
  | DELETE
  | MODIFY
deriving DecidableEq

/-- First-match association-list lookup: the read `d[k]` of a Python dict
(keys are unique in every dict the program builds). -/
def alookup {α β : Type} [DecidableEq α] (a : α) : List (α × β) → Option β
  | [] => none
  | (k, v) :: rest => if a = k then some v else alookup a rest

/-- First loop of `_checkFilesToUpdate` (lines 106-127): walk the remote
file map in order; a path missing on disk is NEW, a path present with a
different digest is MODIFY, a path present with the same digest is omitted.
The disk probe merges `os.path.exists` and the local `_sha256File` read:
`none` means the path does not exist, `some h` means it exists with digest
`h`. -/
def planRemote (disk : Path → Option Digest) : List (Path × Digest) → List (Path × FileUpdateType)
  | [] => []
  | (p, d) :: rest =>
    match disk p with
    | some h =>
      if h = d then planRemote disk rest
      else (p, FileUpdateType.MODIFY) :: planRemote disk rest
    | none => (p, FileUpdateType.NEW) :: planRemote disk rest

/-- Second loop of `_checkFilesToUpdate` (lines 130-135): every path of the
prior local record that is absent from the remote key set becomes DELETE. -/
def planDelete (remoteKeys : List Path) : List (Path × Digest) → List (Path × FileUpdateType)
  | [] => []
  | (p, _) :: rest =>
    if p ∈ remoteKeys then planDelete remoteKeys rest
    else (p, FileUpdateType.DELETE) :: planDelete remoteKeys rest

/-- `_checkFilesToUpdate` (lines 87-140), as the pure diff over the given
newest remote file map, prior local record and disk state (the staleness
refresh of the version information at its entry, lines 94-98, is the
caller's supplied `remote`). The two loops append into one dict, remote
entries first. -/
def checkFilesToUpdate (remote localRecord : List (Path × Digest))
    (disk : Path → Option Digest) : List (Path × FileUpdateType) :=
  planRemote disk remote ++ planDelete (remote.map Prod.fst) localRecord

/-- The local file tree under `self.instanceLocation`: existing directories
(`[]` is the instance root itself), existing files with their content
digest, and the set of paths writable by the process (`os.access(_, W_OK)`). -/
structure FS where
  dirs : List Path
  files : List (Path × Digest)
  writable : List Path
deriving DecidableEq

/-- Keys of the existing files. -/
def FS.fileKeys (fs : FS) : List Path := fs.files.map Prod.fst

/-- `os.path.exists` on a path below the instance root. -/
def FS.existsPath (fs : FS) (p : Path) : Prop := p ∈ fs.dirs ∨ p ∈ fs.fileKeys

instance (fs : FS) (p : Path) : Decidable (fs.existsPath p) :=
  inferInstanceAs (Decidable (_ ∨ _))

/-- The disk probe used by the diff: digest of an existing file. -/
def FS.fileDigest (fs : FS) (p : Path) : Option Digest := alookup p fs.files

/-- Inner component walk of the NEW branch of `_checkFilePermissions`
(lines 168-181): every component of the path is probed in order; only a
component that exists is required to be writable, and `tempPart` advances
only across existing components.  The instance root itself is never probed
by this walk. -/
def auditNewLoop (fs : FS) : List String → Path → Bool
  | [], _ => true
  | part :: rest, tempPart =>
    if fs.existsPath (tempPart ++ [part]) then
      if (tempPart ++ [part]) ∈ fs.writable then auditNewLoop fs rest (tempPart ++ [part])
      else false
    else auditNewLoop fs rest tempPart

/-- One entry of `_checkFilePermissions` (lines 142-195): MODIFY and DELETE
require the target writable; NEW with a single component requires the
instance root writable, otherwise the component walk above runs. -/
def permissionOk (fs : FS) (p : Path) (a : FileUpdateType) : Bool :=
  match a with
  | FileUpdateType.MODIFY => decide (p ∈ fs.writable)
  | FileUpdateType.NEW =>
    if p.length = 1 then decide (([] : Path) ∈ fs.writable)
    else auditNewLoop fs p []
  | FileUpdateType.DELETE => decide (p ∈ fs.writable)

/-- `_checkFilePermissions`: the audit passes iff every plan entry passes
(the source returns False at the first offender; the Boolean result is the
same). -/
def checkFilePermissions (plan : List (Path × FileUpdateType)) (fs : FS) : Bool :=
  plan.all (fun pa => permissionOk fs pa.1 pa.2)

/-- Failure kinds of the modelled filesystem calls. -/
inductive FsErr where
  | permDenied
  | notFound
  | notDirectory
  | alreadyThere
deriving DecidableEq

/-- `os.mkdir`: fails if the target exists, if the parent directory is
missing, or if the parent is not writable; a created directory is writable
by its creator. -/
def FS.mkdir (fs : FS) (p : Path) : Except FsErr FS :=
  if fs.existsPath p then Except.error FsErr.alreadyThere
  else if ¬ p.dropLast ∈ fs.dirs then Except.error FsErr.notFound
  else if p.dropLast ∈ fs.writable then
    Except.ok { fs with dirs := p :: fs.dirs, writable := p :: fs.writable }
  else Except.error FsErr.permDenied

/-- Component walk of `_createSubDirectories` (lines 202-223): create each
missing ancestor, error if an existing component is not a directory.  An
exception stops the walk; directories already created persist.  The second
component of the result is the first error hit, if any (the caller at line
595 ignores the Boolean result of the source function). -/
def createSubDirsAux (fs : FS) : List String → Path → FS × Option FsErr
  | [], _ => (fs, none)
  | c :: rest, tempPart =>
    if fs.existsPath (tempPart ++ [c]) then
      if (tempPart ++ [c]) ∈ fs.dirs then createSubDirsAux fs rest (tempPart ++ [c])
      else (fs, some FsErr.notDirectory)
    else
      match fs.mkdir (tempPart ++ [c]) with
      | Except.ok fs2 => createSubDirsAux fs2 rest (tempPart ++ [c])
      | Except.error e => (fs, some e)

/-- `_createSubDirectories` (lines 197-230): nothing to do for a
single-component path, otherwise create the missing ancestors of the file. -/
def createSubDirectories (p : Path) (fs : FS) : FS × Option FsErr :=
  if p.length = 1 then (fs, none)
  else createSubDirsAux fs p.dropLast []

/-- `os.listdir(d)` is nonempty: some entry lies strictly below `d`. -/
def FS.dirNonempty (fs : FS) (d : Path) : Bool :=
  fs.files.any (fun q => d.isPrefixOf q.1 && decide (q.1 ≠ d)) ||
  fs.dirs.any (fun q => d.isPrefixOf q && decide (q ≠ d))

/-- `os.rmdir`. -/
def FS.rmdir (fs : FS) (d : Path) : FS :=
  { fs with dirs := fs.dirs.filter (fun q => decide (q ≠ d)) }

/-- `os.remove`. -/
def FS.removeFile (fs : FS) (p : Path) : FS :=
  { fs with files := fs.files.filter (fun q => decide (q.1 ≠ p)) }

/-- The directory prefixes probed by `_deleteSubDirectories` for a parent
directory `q`: `q` itself first, then ever shorter prefixes down to the
first component (the instance root is never in the chain). -/
def parentChain (q : Path) : List Path :=
  (List.range q.length).reverse.map (fun i => q.take (i + 1))

/-- Pruning walk of `_deleteSubDirectories` (lines 236-251): stop at the
first nonexistent (the `os.listdir` exception is caught) or nonempty
directory, remove empty ones. -/
def delSubDirsAux (fs : FS) : List Path → FS
  | [] => fs
  | d :: rest =>
    if ¬ d ∈ fs.dirs then fs
    else if fs.dirNonempty d then fs
    else delSubDirsAux (fs.rmdir d) rest

/-- `_deleteSubDirectories` (lines 232-258). -/
def deleteSubDirectories (p : Path) (fs : FS) : FS :=
  delSubDirsAux fs (parentChain p.dropLast)

/-- Writing a file: replace or create the entry at `p` with on-disk digest
`d`; a newly created file is writable by its creator. -/
def FS.writeFile (fs : FS) (p : Path) (d : Digest) : FS :=
  { fs with files := (p, d) :: fs.files.filter (fun q => decide (q.1 ≠ p)),
            writable := if p ∈ fs.writable then fs.writable else p :: fs.writable }

/-- `open(path, mode wb)` followed by the copy (lines 599-601): fails if
the parent directory is missing, if an existing target file is not
writable, or if a new file is created in a non-writable directory. -/
def openWrite (fs : FS) (p : Path) (d : Digest) : Except FsErr FS :=
  if ¬ p.dropLast ∈ fs.dirs then Except.error FsErr.notFound
  else if p ∈ fs.fileKeys then
    if p ∈ fs.writable then Except.ok (fs.writeFile p d) else Except.error FsErr.permDenied
  else if p.dropLast ∈ fs.writable then Except.ok (fs.writeFile p d)
  else Except.error FsErr.permDenied

/-- Observable filesystem events of the apply loop, in the order they
happen: a file's bytes hitting the disk, and a file's removal. -/
inductive Event where
  | write (p : Path)
  | remove (p : Path)
deriving DecidableEq

/-- One iteration of the apply loop of `updateInstance` (lines 577-643).
`nf` is `self.newestFiles`; `wr p` is the digest found on disk when the
just-copied file `p` is re-read and re-hashed (lines 608-610) — it models
both a faithful write and corruption during the write.  DELETE removes the
file and prunes empty ancestors; NEW first creates missing ancestor
directories, with the source ignoring that call's Boolean result (line
595); NEW and MODIFY then copy the downloaded bytes and re-hash the
destination, any mismatch failing the run.  The `chmod` adjustment of the
fixed executable/config path lists (lines 616-643) changes no file content
or digest and is not modelled. -/
def applyEntry (nf : Path → Option Digest) (wr : Path → Digest)
    (p : Path) (a : FileUpdateType) (fs : FS) : Bool × FS × List Event :=
  match a with
  | FileUpdateType.DELETE =>
    if p ∈ fs.fileKeys then
      (true, deleteSubDirectories p (fs.removeFile p), [Event.remove p])
    else (false, fs, [])
  | _ =>
    let fs1 := if a = FileUpdateType.NEW then (createSubDirectories p fs).1 else fs
    match openWrite fs1 p (wr p) with
    | Except.error _ => (false, fs1, [])
    | Except.ok fs2 =>
      match nf p with
      | some d =>
        if wr p = d then (true, fs2, [Event.write p])
        else (false, fs2, [Event.write p])
      | none => (false, fs2, [Event.write p])

/-- The apply loop of `updateInstance`: a single pass over the plan in dict
order, stopping at the first failing entry and returning the state reached
there; the trace collects the filesystem events in order. -/
def applyLoop (nf : Path → Option Digest) (wr : Path → Digest) :
    List (Path × FileUpdateType) → FS → Bool × FS × List Event
  | [], fs => (true, fs, [])
  | e :: rest, fs =>
    let r := applyEntry nf wr e.1 e.2 fs
    if r.1 then
      let r2 := applyLoop nf wr rest r.2.1
      (r2.1, r2.2.1, r.2.2 ++ r2.2.2)
    else r

/-- The maximum redirection count `self.max_redirections`. -/
def max_redirections : Nat := 10

/-- The download loop of `_downloadFile` (lines 272-344), with the fuel
`max_redirections + 1 - redirect_ctr`: the guard `redirect_ctr >
max_redirections` fires exactly when the fuel is exhausted.  Each round
GETs the current location into the shared temporary buffer; the write
starts at offset 0 without truncating, so bytes of a longer earlier
response beyond the new length survive.  A location listed among the
symlink markers redirects to `dirname(loc)` joined with the stripped first
line of the buffer (`readLine` is that decode, already split at slashes). -/
def dlAux (fetch : Path → Option (List Nat)) (symlinks : List Path)
    (readLine : List Nat → List String) : Nat → Path → List Nat → Option (List Nat)
  | 0, _, _ => none
  | n + 1, loc, buf =>
    match fetch loc with
    | none => none
    | some bs =>
      let buf2 := bs ++ buf.drop bs.length
      if loc ∈ symlinks then dlAux fetch symlinks readLine n (loc.dropLast ++ readLine buf2) buf2
      else some buf2

/-- `_downloadFile` (lines 260-358): run the redirection loop, then hash
the final buffer and compare with the expected digest; a mismatch returns
failure, only a matching buffer is handed back. -/
def downloadFile (fetch : Path → Option (List Nat)) (symlinks : List Path)
    (readLine : List Nat → List String) (sha : List Nat → Digest)
    (loc : Path) (expected : Digest) : Option (List Nat) :=
  match dlAux fetch symlinks readLine (max_redirections + 1) loc [] with
  | none => none
  | some buf => if sha buf = expected then some buf else none

/-- The close loop `for fileHandle in downloadedFileHandles: close` run by
`updateInstance` on its failure (lines 567-568) and success (lines 645-646)
paths: every handle named in the dict is closed. -/
def closeHandles (toClose opened : List Path) : List Path :=
  opened.filter (fun h => decide (¬ h ∈ toClose))

/-- Download phase of `updateInstance` (lines 554-574): walk the plan in
order, `_downloadFile` every NEW and MODIFY entry with its expected remote
digest, and accumulate the open temporary handles keyed by path.  On the
first failure every already-downloaded handle is closed and the phase
reports failure together with the handles still open (none); on success it
returns the handle map, all still open for the apply phase. -/
def downloadPhase (download : Path → Digest → Option (List Nat)) (expectedOf : Path → Digest) :
    List (Path × FileUpdateType) → List (Path × List Nat) →
    Option (List (Path × List Nat)) × List Path
  | [], acc => (some acc, acc.map Prod.fst)
  | (p, a) :: rest, acc =>
    match a with
    | FileUpdateType.DELETE => downloadPhase download expectedOf rest acc
    | _ =>
      match download p (expectedOf p) with
      | some c => downloadPhase download expectedOf rest (acc ++ [(p, c)])
      | none => (none, closeHandles (acc.map Prod.fst) (acc.map Prod.fst))

/-- The empty digest placeholder (unreachable for planner-produced plans). -/
def emptyDigest : Digest := ""

/-- The digest the coordinator passes to `_downloadFile` for a plan entry:
`self.newestFiles[fileToUpdate]` (always present for NEW/MODIFY entries). -/
def remoteDigestOf (remote : List (Path × Digest)) : Path → Digest :=
  fun p => (alookup p remote).getD emptyDigest

/-- `updateInstance` (lines 532-649): plan, return success immediately on
an empty plan, audit permissions, download every required file, then apply.
The result carries the final disk state and the temporary handles still
open on return: the failure path of the download phase and the success path
both close every downloaded handle; a failure inside the apply loop returns
with the handles still open, as in the source. -/
def updateInstance (remote localRecord : List (Path × Digest))
    (download : Path → Digest → Option (List Nat)) (wr : Path → Digest) (fs : FS) :
    Bool × FS × List Path :=
  let plan := checkFilesToUpdate remote localRecord fs.fileDigest
  if plan = [] then (true, fs, [])
  else if checkFilePermissions plan fs then
    let dp := downloadPhase download (remoteDigestOf remote) plan []
    match dp.1 with
    | none => (false, fs, dp.2)
    | some handles =>
      let r := applyLoop (fun p => alookup p remote) wr plan fs
      if r.1 then (true, r.2.1, closeHandles (handles.map Prod.fst) (handles.map Prod.fst))
      else (false, r.2.1, handles.map Prod.fst)
  else (false, fs, [])

/-- JSON values as parsed by `json.loads` (numbers keep Python's int/float
distinction; a float is the exact rational it denotes, which preserves the
ordering and equality comparisons the program performs on them). -/
inductive Json where
  | jnull
  | jbool (b : Bool)
  | jint (n : Int)
  | jfloat (q : Rat)
  | jstr (s : String)
  | jarr (elems : List Json)
  | jobj (fields : List (String × Json))

/-- Dict field access `doc[k]`: a missing key or a non-dict document raises
(KeyError/TypeError), modelled as `none`. -/
def getField (j : Json) (k : String) : Option Json :=
  match j with
  | Json.jobj fields => alookup k fields
  | _ => none

/-- `isinstance(x, float)`. -/
def isJFloat : Json → Bool
  | Json.jfloat _ => true
  | _ => false

/-- `isinstance(x, int)`. -/
def isJInt : Json → Bool
  | Json.jint _ => true
  | _ => false

/-- `isinstance(x, dict)`. -/
def isJObj : Json → Bool
  | Json.jobj _ => true
  | _ => false

/-- `isinstance(x, list)`. -/
def isJArr : Json → Bool
  | Json.jarr _ => true
  | _ => false

def kVersion : String := "version"

def kRev : String := "rev"

def kDependencies : String := "dependencies"

def kSymlinks : String := "symlinks"

def kFiles : String := "files"

/-- The reachable validation of `_getInstanceInformation` (lines 397-413):
`version` must be a float, `rev` an int, `dependencies` a dict; a missing
key raises and fails.  The `symlinks` type check of lines 408-409 is nested
under the `dependencies` raise statement in the source and is unreachable,
so no `symlinks` check occurs here. -/
def validateInstanceInfo (j : Json) : Bool :=
  match getField j kVersion with
  | none => false
  | some v =>
    if isJFloat v then
      match getField j kRev with
      | none => false
      | some r =>
        if isJInt r then
          match getField j kDependencies with
          | none => false
          | some dep => isJObj dep
        else false
    else false

/-- The manifest-client state the instance-information path touches. -/
structure ClientState where
  instanceInfo : Option Json
  lastChecked : Nat

/-- `_getInstanceInformation` after a successful transport (lines 397-413):
`self.instanceInfo` is assigned the parsed document at line 398 before any
validation runs, so the assignment survives a validation failure. -/
def getInstanceInformationStep (fetched : Json) (s : ClientState) : Bool × ClientState :=
  let s2 := { s with instanceInfo := some fetched }
  (validateInstanceInfo fetched, s2)

/-- Public `getInstanceInformation` (lines 508-518): refetch when the cache
is stale or empty, raise (here `none`) when the refetch fails validation,
otherwise serve `self.instanceInfo`. -/
def getInstanceInformation (now : Nat) (fetched : Json) (s : ClientState) :
    Option Json × ClientState :=
  if 60 < now - s.lastChecked ∨ s.instanceInfo.isNone = true then
    match getInstanceInformationStep fetched s with
    | (true, s2) => (s2.instanceInfo, s2)
    | (false, s2) => (none, s2)
  else (s.instanceInfo, s)

/-- The newest-version bookkeeping state (fields of `Updater`). -/
structure NewestState where
  newestVersion : Rat
  newestRev : Int
  newestFiles : Option (List (Path × Digest))
  newestSymlinks : Option (List Path)
deriving DecidableEq

/-- Fetched identity strictly newer than the remembered one, lexicographic
with the version as primary key. -/
def versionLt (a b : Rat × Int) : Prop := a.1 < b.1 ∨ (a.1 = b.1 ∧ a.2 < b.2)

instance (a b : Rat × Int) : Decidable (versionLt a b) :=
  inferInstanceAs (Decidable (_ ∨ _))

/-- Newer-or-equal identity. -/
def versionLe (a b : Rat × Int) : Prop := versionLt a b ∨ a = b

/-- The remembered identity. -/
def NewestState.identity (s : NewestState) : Rat × Int := (s.newestVersion, s.newestRev)

/-- Tail of `_getNewestVersionInformation` after a successful fetch and
parse (lines 494-503): overwrite the remembered newest state iff the
fetched version is strictly greater, or the revision is strictly greater at
an equal version, or no files/symlinks were recorded yet. -/
def getNewestVersionStep (s : NewestState) (v : Rat) (r : Int)
    (files : List (Path × Digest)) (symlinks : List Path) : NewestState :=
  if s.newestVersion < v ∨ (s.newestRev < r ∧ v = s.newestVersion)
      ∨ s.newestFiles = none ∨ s.newestSymlinks = none then
    { newestVersion := v, newestRev := r,
      newestFiles := some files, newestSymlinks := some symlinks }
  else s

/-- A sequence of successful checks applied in order. -/
def runChecks (s : NewestState) :
    List (Rat × Int × List (Path × Digest) × List Path) → NewestState
  | [] => s
  | c :: rest => runChecks (getNewestVersionStep s c.1 c.2.1 c.2.2.1 c.2.2.2) rest

/-- Trace consists of write events only. -/
def onlyWrites : List Event → Bool
  | [] => true
  | Event.write _ :: r => onlyWrites r
  | Event.remove _ :: _ => false

/-- Trace consists of remove events only. -/
def onlyRemoves : List Event → Bool
  | [] => true
  | Event.remove _ :: r => onlyRemoves r
  | Event.write _ :: _ => false

/-- Every write event precedes every remove event. -/
def writesThenRemoves : List Event → Bool
  | [] => true
  | Event.write _ :: r => writesThenRemoves r
  | Event.remove _ :: r => onlyRemoves r

/-- Every remove event precedes every write event (the ordering the claim
about the apply phase asserts). -/
def removesThenWrites : List Event → Bool
  | [] => true
  | Event.remove _ :: r => removesThenWrites r
  | Event.write _ :: r => onlyWrites r

/-- A digest constant for concrete runs. -/
def hDigest : Digest := "h"

/-- Concrete transport for the single-fetch download run: one response. -/
def fetch1w : Path → Option (List Nat) := fun _ => some [1]

/-- Concrete pointer-line decode (unused: no symlinks in the run). -/
def readLine1w : List Nat → List String := fun _ => []

/-- Concrete digest function for the single-fetch download run. -/
def sha1w : List Nat → Digest := fun _ => "d"

/-- Concrete start location for the single-fetch download run. -/
def loc1w : Path := ["f"]

/-- The i-th location of the synthetic symlink chain. -/
def chainPath (i : Nat) : Path := List.replicate i ("x") ++ ["f"]

/-- Symlink markers of a chain needing `n` redirections. -/
def chainSymlinks (n : Nat) : List Path := (List.range n).map chainPath

/-- Transport of the chain run: every location answers one byte. -/
def chainFetch : Path → Option (List Nat) := fun _ => some [7]

/-- Pointer-line decode of the chain run: every marker points one hop on
(`dirname(chainPath i) ++ ["x", "f"] = chainPath (i+1)`). -/
def chainReadLine : List Nat → List String := fun _ => ["x", "f"]

/-- Digest function of the chain run. -/
def chainSha : List Nat → Digest := fun _ => "d"

/-- An instance root that exists but is not writable, with nothing below it. -/
def fs4 : FS := { dirs := [[]], files := [], writable := [] }

/-- The nested NEW path of the audit-hole run. -/
def path4 : Path := ["a", "b.txt"]

/-- The plan `a/b.txt → New`. -/
def plan4 : List (Path × FileUpdateType) := [(path4, FileUpdateType.NEW)]

/-- Remote digests of the audit-hole run. -/
def nf4 : Path → Option Digest := fun _ => some hDigest

/-- On-disk digest oracle of the audit-hole run. -/
def wr4 : Path → Digest := fun _ => hDigest

/-- Remote map of the mixed-plan run: one new file. -/
def remote5 : List (Path × Digest) := [(["n.txt"], "h1")]

/-- Prior local record of the mixed-plan run: one file to delete. -/
def lr5 : List (Path × Digest) := [(["old.txt"], "h0")]

/-- Disk state of the mixed-plan run: writable root holding `old.txt`. -/
def fs5 : FS := { dirs := [[]], files := [(["old.txt"], "h2")], writable := [[]] }

/-- Remote digests of the mixed-plan run. -/
def nf5 : Path → Option Digest := fun p => alookup p remote5

/-- On-disk digest oracle of the mixed-plan run: faithful write. -/
def wr5 : Path → Digest := fun _ => "h1"

/-- Disk state of the post-write-mismatch run: root with writable `x`. -/
def fs6w : FS := { dirs := [[]], files := [(["x"], "old")], writable := [["x"]] }

/-- Remote digests of the post-write-mismatch run. -/
def nf6w : Path → Option Digest := fun _ => some ("good")

/-- On-disk digest oracle of the post-write-mismatch run: corrupted write. -/
def wr6w : Path → Digest := fun _ => "bad"

/-- State after the corrupted write of `x`. -/
def fs6wAfter : FS := { dirs := [[]], files := [(["x"], "bad")], writable := [["x"]] }

/-- The cached document before the manifest runs. -/
def doc7prev : Json := Json.jnull

/-- Manifest-client state with a fresh prior document. -/
def s7 : ClientState := { instanceInfo := some doc7prev, lastChecked := 0 }

/-- An instance document whose `symlinks` field is present but not a list. -/
def doc7ok : Json :=
  Json.jobj [(kVersion, Json.jfloat 1), (kRev, Json.jint 1),
    (kDependencies, Json.jobj []), (kSymlinks, Json.jint 42)]

/-- An instance document that fails validation (`version` is a string). -/
def doc7bad : Json := Json.jobj [(kVersion, Json.jstr ("x"))]

/-- A recorded newest state at identity (2, 3). -/
def nw8 : NewestState :=
  { newestVersion := 2, newestRev := 3, newestFiles := some [], newestSymlinks := some [] }

/-- Remote map of the failed-download run. -/
def remote9 : List (Path × Digest) := [(["x"], hDigest)]

/-- Disk state of the failed-download run: an empty writable root. -/
def fs9 : FS := { dirs := [[]], files := [], writable := [[]] }

/-- Transport of the failed-download run: every download fails. -/
def dl9 : Path → Digest → Option (List Nat) := fun _ _ => none

/-- On-disk digest oracle of the failed-download run. -/
def wr9 : Path → Digest := fun _ => hDigest

/-- Remote map of the up-to-date run. -/
def remote10 : List (Path × Digest) := [(["a"], hDigest)]

/-- Prior local record of the up-to-date run: same path, still remote. -/
def lr10 : List (Path × Digest) := [(["a"], "g")]

/-- Disk state of the up-to-date run: the file present with its digest. -/
def fs10 : FS := { dirs := [[]], files := [(["a"], hDigest)], writable := [] }

/-- Transport of the up-to-date run. -/
def dl10 : Path → Digest → Option (List Nat) := fun _ _ => none

/-- On-disk digest oracle of the up-to-date run. -/
def wr10 : Path → Digest := fun _ => emptyDigest

/-- Remote map of the diff-classification witness run. -/
def remote2w : List (Path × Digest) := [(["a"], hDigest)]

/-- Disk probe of the diff-classification witness run: nothing on disk. -/
def disk2w : Path → Option Digest := fun _ => none

theorem alookup_eq_some_of_mem {α β : Type} [DecidableEq α] (a : α) (b : β)
    (l : List (α × β)) (hm : (a, b) ∈ l) (hnd : (l.map Prod.fst).Nodup) :
    alookup a l = some b := by
  induction l with
  | nil => cases hm
  | cons e rest ih =>
    obtain ⟨k, w⟩ := e
    simp only [List.map_cons, List.nodup_cons] at hnd
    rcases List.mem_cons.mp hm with heq | hmem
    · injection heq with h1 h2
      subst h1
      subst h2
      simp [alookup]
    · have hak : a ≠ k := by
        intro hh
        subst hh
        exact hnd.1 (List.mem_map.mpr ⟨(a, b), hmem, rfl⟩)
      simpa [alookup, hak] using ih hmem hnd.2

theorem alookup_eq_none_of_not_mem {α β : Type} [DecidableEq α] (a : α)
    (l : List (α × β)) (hm : a ∉ l.map Prod.fst) : alookup a l = none := by
  induction l with
  | nil => rfl
  | cons e rest ih =>
    obtain ⟨k, w⟩ := e
    simp only [List.map_cons, List.mem_cons, not_or] at hm
    simpa [alookup, hm.1] using ih hm.2

theorem alookup_append_some {α β : Type} [DecidableEq α] (a : α)
    (xs ys : List (α × β)) (v : β) (h : alookup a xs = some v) :
    alookup a (xs ++ ys) = some v := by
  induction xs with
  | nil => cases h
  | cons e rest ih =>
    obtain ⟨k, w⟩ := e
    by_cases hk : a = k
    · simp only [alookup, if_pos hk] at h
      simp [alookup, hk, h]
    · simp only [alookup, if_neg hk] at h
      simpa [alookup, hk] using ih h

theorem alookup_append_none {α β : Type} [DecidableEq α] (a : α)
    (xs ys : List (α × β)) (h : alookup a xs = none) :
    alookup a (xs ++ ys) = alookup a ys := by
  induction xs with
  | nil => rfl
  | cons e rest ih =>
    obtain ⟨k, w⟩ := e
    by_cases hk : a = k
    · simp only [alookup, if_pos hk] at h
      cases h
    · simp only [alookup, if_neg hk] at h
      simpa [alookup, hk] using ih h

theorem planRemote_keys_sublist (disk : Path → Option Digest)
    (remote : List (Path × Digest)) :
    List.Sublist ((planRemote disk remote).map Prod.fst) (remote.map Prod.fst) := by
  induction remote with
  | nil => simp [planRemote]
  | cons e rest ih =>
    obtain ⟨k, w⟩ := e
    cases hk : disk k with
    | none => simpa [planRemote, hk] using ih.cons₂ k
    | some h =>
      by_cases he : h = w
      · simpa [planRemote, hk, he] using ih.cons k
      · simpa [planRemote, hk, he] using ih.cons₂ k

theorem planDelete_keys_sublist (rk : List Path) (lr : List (Path × Digest)) :
    List.Sublist ((planDelete rk lr).map Prod.fst) (lr.map Prod.fst) := by
  induction lr with
  | nil => simp [planDelete]
  | cons e rest ih =>
    obtain ⟨k, w⟩ := e
    by_cases hk : k ∈ rk
    · simpa [planDelete, hk] using ih.cons k
    · simpa [planDelete, hk] using ih.cons₂ k

theorem planDelete_keys_not_mem (rk : List Path) (lr : List (Path × Digest)) :
    ∀ q, q ∈ (planDelete rk lr).map Prod.fst → q ∉ rk := by
  induction lr with
  | nil => intro q hq; cases hq
  | cons e rest ih =>
    obtain ⟨k, w⟩ := e
    intro q hq
    by_cases hk : k ∈ rk
    · have hu : planDelete rk ((k, w) :: rest) = planDelete rk rest := by
        simp [planDelete, hk]
      rw [hu] at hq
      exact ih q hq
    · have hu : planDelete rk ((k, w) :: rest) =
          (k, FileUpdateType.DELETE) :: planDelete rk rest := by
        simp [planDelete, hk]
      rw [hu, List.map_cons] at hq
      rcases List.mem_cons.mp hq with heq | hmem
      · exact heq ▸ hk
      · exact ih q hmem

theorem planRemote_lookup (disk : Path → Option Digest) (remote : List (Path × Digest))
    (p : Path) (hnd : (remote.map Prod.fst).Nodup) :
    alookup p (planRemote disk remote) =
      match alookup p remote, disk p with
      | none, _ => none
      | some _, none => some FileUpdateType.NEW
      | some d, some h => if h = d then none else some FileUpdateType.MODIFY := by
  induction remote with
  | nil => rfl
  | cons e rest ih =>
    obtain ⟨k, w⟩ := e
    simp only [List.map_cons, List.nodup_cons] at hnd
    by_cases hpk : p = k
    · subst hpk
      have hrest : alookup p (planRemote disk rest) = none :=
        alookup_eq_none_of_not_mem p _
          (fun hc => hnd.1 ((planRemote_keys_sublist disk rest).subset hc))
      cases hd : disk p with
      | none => simp [planRemote, hd, alookup]
      | some h =>
        by_cases he : h = w
        · simp [planRemote, hd, he, alookup, hrest]
        · simp [planRemote, hd, he, alookup]
    · cases hd : disk k with
      | none => simpa [planRemote, hd, alookup, hpk] using ih hnd.2
      | some h =>
        by_cases he : h = w
        · simpa [planRemote, hd, he, alookup, hpk] using ih hnd.2
        · simpa [planRemote, hd, he, alookup, hpk] using ih hnd.2

theorem planDelete_lookup_none_of_mem (rk : List Path) (lr : List (Path × Digest))
    (p : Path) (hp : p ∈ rk) : alookup p (planDelete rk lr) = none := by
  induction lr with
  | nil => rfl
  | cons e rest ih =>
    obtain ⟨k, w⟩ := e
    by_cases hk : k ∈ rk
    · simpa [planDelete, hk] using ih
    · have hpk : p ≠ k := fun hh => hk (hh ▸ hp)
      simpa [planDelete, hk, alookup, hpk] using ih

theorem planDelete_lookup (rk : List Path) (lr : List (Path × Digest))
    (p : Path) (hp : p ∉ rk) :
    alookup p (planDelete rk lr) =
      match alookup p lr with
      | none => none
      | some _ => some FileUpdateType.DELETE := by
  induction lr with
  | nil => rfl
  | cons e rest ih =>
    obtain ⟨k, w⟩ := e
    by_cases hpk : p = k
    · subst hpk
      simp [planDelete, hp, alookup]
    · by_cases hk : k ∈ rk
      · simpa [planDelete, hk, alookup, hpk] using ih
      · simpa [planDelete, hk, alookup, hpk] using ih

/-- C2: classification of the diff planner.  For nodup key sets (as Python
dicts guarantee): a remote path absent from disk is planned NEW regardless
of the prior local record; present with a differing digest is MODIFY;
present with the matching digest is omitted; a recorded path absent from
the remote map is DELETE; and the plan assigns no path two actions (its key
list is nodup). -/
theorem checkFilesToUpdate_classification
    (remote localRecord : List (Path × Digest)) (disk : Path → Option Digest)
    (hr : (remote.map Prod.fst).Nodup) (hl : (localRecord.map Prod.fst).Nodup) :
    (∀ p d, (p, d) ∈ remote →
      (disk p = none →
        alookup p (checkFilesToUpdate remote localRecord disk) = some FileUpdateType.NEW) ∧
      (∀ h, disk p = some h → h ≠ d →
        alookup p (checkFilesToUpdate remote localRecord disk) = some FileUpdateType.MODIFY) ∧
      (disk p = some d →
        alookup p (checkFilesToUpdate remote localRecord disk) = none)) ∧
    (∀ p d, (p, d) ∈ localRecord → p ∉ remote.map Prod.fst →
      alookup p (checkFilesToUpdate remote localRecord disk) = some FileUpdateType.DELETE) ∧
    ((checkFilesToUpdate remote localRecord disk).map Prod.fst).Nodup := by
  refine ⟨?_, ?_, ?_⟩
  · intro p d hm
    have hlook : alookup p remote = some d := alookup_eq_some_of_mem p d remote hm hr
    have hchar := planRemote_lookup disk remote p hr
    refine ⟨?_, ?_, ?_⟩
    · intro hdisk
      rw [hlook, hdisk] at hchar
      exact alookup_append_some p _ _ _ hchar
    · intro h hdisk hne
      rw [hlook, hdisk] at hchar
      dsimp only at hchar
      rw [if_neg hne] at hchar
      exact alookup_append_some p _ _ _ hchar
    · intro hdisk
      rw [hlook, hdisk] at hchar
      dsimp only at hchar
      rw [if_pos rfl] at hchar
      rw [checkFilesToUpdate, alookup_append_none p _ _ hchar]
      exact planDelete_lookup_none_of_mem _ _ p (List.mem_map.mpr ⟨(p, d), hm, rfl⟩)
  · intro p d hm hnr
    have h1 : alookup p (planRemote disk remote) = none := by
      rw [planRemote_lookup disk remote p hr, alookup_eq_none_of_not_mem p remote hnr]
    rw [checkFilesToUpdate, alookup_append_none p _ _ h1, planDelete_lookup _ _ p hnr,
      alookup_eq_some_of_mem p d localRecord hm hl]
  · rw [checkFilesToUpdate, List.map_append]
    refine List.Nodup.append (List.Nodup.sublist (planRemote_keys_sublist disk remote) hr)
      (List.Nodup.sublist (planDelete_keys_sublist _ localRecord) hl) ?_
    intro q hq1 hq2
    exact planDelete_keys_not_mem _ _ q hq2 ((planRemote_keys_sublist disk remote).subset hq1)

/-- Witness for C2: in a concrete state a remote file absent from disk is
planned NEW. -/
theorem checkFilesToUpdate_classification_witness :
    alookup (["a"]) (checkFilesToUpdate remote2w [] disk2w) = some FileUpdateType.NEW :=
  ((checkFilesToUpdate_classification remote2w [] disk2w (by decide) (by decide)).1
    (["a"]) hDigest (by decide)).1 rfl

/-- C1: `_downloadFile` hands its buffer to the caller only when the
computed digest of the received content equals the expected digest; a
mismatch returns failure, so mismatching content is never handed to the
apply phase. -/
theorem downloadFile_digest_guarantee (fetch : Path → Option (List Nat))
    (symlinks : List Path) (readLine : List Nat → List String)
    (sha : List Nat → Digest) (loc : Path) (expected : Digest) (c : List Nat)
    (h : downloadFile fetch symlinks readLine sha loc expected = some c) :
    sha c = expected := by
  unfold downloadFile at h
  cases hdl : dlAux fetch symlinks readLine (max_redirections + 1) loc [] with
  | none => rw [hdl] at h; cases h
  | some buf =>
    rw [hdl] at h
    dsimp only at h
    by_cases hs : sha buf = expected
    · rw [if_pos hs] at h
      cases h
      exact hs
    · rw [if_neg hs] at h
      cases h

/-- Witness for C1: the concrete single-fetch run returns its buffer, whose
digest therefore equals the expected one. -/
theorem downloadFile_digest_guarantee_witness : sha1w [1] = "d" :=
  downloadFile_digest_guarantee fetch1w [] readLine1w sha1w loc1w ("d") [1] rfl

/-- C3: on the synthetic chain, a fetch needing exactly
`max_redirections = 10` redirections succeeds while one needing 11 fails
with the too-many-redirections error, so the bound is exactly 10 hops. -/
theorem downloadFile_redirection_bound :
    downloadFile chainFetch (chainSymlinks max_redirections) chainReadLine chainSha
      (chainPath 0) ("d") = some [7] ∧
    downloadFile chainFetch (chainSymlinks (max_redirections + 1)) chainReadLine chainSha
      (chainPath 0) ("d") = none := by
  constructor
  · rfl
  · rfl

theorem onlyWrites_append (a b : List Event) :
    onlyWrites (a ++ b) = (onlyWrites a && onlyWrites b) := by
  induction a with
  | nil => simp [onlyWrites]
  | cons e rest ih =>
    cases e with
    | write p => simp [onlyWrites, ih]
    | remove p => simp [onlyWrites]

theorem onlyRemoves_append (a b : List Event) :
    onlyRemoves (a ++ b) = (onlyRemoves a && onlyRemoves b) := by
  induction a with
  | nil => simp [onlyRemoves]
  | cons e rest ih =>
    cases e with
    | remove p => simp [onlyRemoves, ih]
    | write p => simp [onlyRemoves]

theorem writesThenRemoves_of_onlyWrites (a : List Event) (h : onlyWrites a = true) :
    writesThenRemoves a = true := by
  induction a with
  | nil => rfl
  | cons e rest ih =>
    cases e with
    | write p =>
      simp only [onlyWrites] at h
      simpa [writesThenRemoves] using ih h
    | remove p => simp [onlyWrites] at h

theorem writesThenRemoves_of_onlyRemoves (a : List Event) (h : onlyRemoves a = true) :
    writesThenRemoves a = true := by
  cases a with
  | nil => rfl
  | cons e rest =>
    cases e with
    | write p => simp [onlyRemoves] at h
    | remove p =>
      simp only [onlyRemoves] at h
      simpa [writesThenRemoves] using h

theorem writesThenRemoves_append (a b : List Event) (ha : onlyWrites a = true)
    (hb : writesThenRemoves b = true) : writesThenRemoves (a ++ b) = true := by
  induction a with
  | nil => simpa using hb
  | cons e rest ih =>
    cases e with
    | write p =>
      simp only [onlyWrites] at ha
      simpa [writesThenRemoves] using ih ha
    | remove p => simp [onlyWrites] at ha

theorem applyEntry_trace_nonDelete (nf : Path → Option Digest) (wr : Path → Digest)
    (p : Path) (a : FileUpdateType) (fs : FS) (ha : a ≠ FileUpdateType.DELETE) :
    onlyWrites (applyEntry nf wr p a fs).2.2 = true := by
  cases a with
  | DELETE => exact absurd rfl ha
  | NEW =>
    simp only [applyEntry]
    split
    · rfl
    · split
      · split <;> rfl
      · rfl
  | MODIFY =>
    simp only [applyEntry]
    split
    · rfl
    · split
      · split <;> rfl
      · rfl

theorem applyEntry_trace_delete (nf : Path → Option Digest) (wr : Path → Digest)
    (p : Path) (fs : FS) :
    onlyRemoves (applyEntry nf wr p FileUpdateType.DELETE fs).2.2 = true := by
  simp only [applyEntry]
  split <;> rfl

theorem applyLoop_trace_onlyRemoves (nf : Path → Option Digest) (wr : Path → Digest)
    (plan : List (Path × FileUpdateType)) (fs : FS)
    (h : ∀ pa ∈ plan, pa.2 = FileUpdateType.DELETE) :
    onlyRemoves (applyLoop nf wr plan fs).2.2 = true := by
  induction plan generalizing fs with
  | nil => rfl
  | cons e rest ih =>
    have he := h e (List.mem_cons_self e rest)
    rcases happ : applyEntry nf wr e.1 e.2 fs with ⟨b, fs2, tr⟩
    have htr : onlyRemoves tr = true := by
      have h2 := applyEntry_trace_delete nf wr e.1 fs
      rw [he] at happ
      rw [happ] at h2
      exact h2
    simp only [applyLoop, happ]
    cases b with
    | false => exact htr
    | true =>
      have hrest := ih fs2 (fun pa hpa => h pa (List.mem_cons_of_mem e hpa))
      simp [onlyRemoves_append, htr, hrest]

theorem applyLoop_trace_split (nf : Path → Option Digest) (wr : Path → Digest)
    (xs ys : List (Path × FileUpdateType)) (fs : FS)
    (hx : ∀ pa ∈ xs, pa.2 ≠ FileUpdateType.DELETE)
    (hy : ∀ pa ∈ ys, pa.2 = FileUpdateType.DELETE) :
    writesThenRemoves (applyLoop nf wr (xs ++ ys) fs).2.2 = true := by
  induction xs generalizing fs with
  | nil =>
    simpa using writesThenRemoves_of_onlyRemoves _ (applyLoop_trace_onlyRemoves nf wr ys fs hy)
  | cons e rest ih =>
    have he := hx e (List.mem_cons_self e rest)
    rcases happ : applyEntry nf wr e.1 e.2 fs with ⟨b, fs2, tr⟩
    have htr : onlyWrites tr = true := by
      have h2 := applyEntry_trace_nonDelete nf wr e.1 e.2 fs he
      rw [happ] at h2
      exact h2
    simp only [List.cons_append, applyLoop, happ]
    cases b with
    | false => exact writesThenRemoves_of_onlyWrites tr htr
    | true =>
      simp only [if_true]
      exact writesThenRemoves_append tr _ htr
        (ih fs2 (fun pa hpa => hx pa (List.mem_cons_of_mem e hpa)))

theorem planRemote_actions (disk : Path → Option Digest) (remote : List (Path × Digest)) :
    ∀ pa ∈ planRemote disk remote, pa.2 ≠ FileUpdateType.DELETE := by
  induction remote with
  | nil => intro pa hpa; cases hpa
  | cons e rest ih =>
    obtain ⟨k, w⟩ := e
    intro pa hpa
    cases hd : disk k with
    | none =>
      have hu : planRemote disk ((k, w) :: rest) =
          (k, FileUpdateType.NEW) :: planRemote disk rest := by
        simp [planRemote, hd]
      rw [hu] at hpa
      rcases List.mem_cons.mp hpa with heq | hmem
      · rw [heq]
        intro hc
        cases hc
      · exact ih pa hmem
    | some h =>
      by_cases hw : h = w
      · have hu : planRemote disk ((k, w) :: rest) = planRemote disk rest := by
          simp [planRemote, hd, hw]
        rw [hu] at hpa
        exact ih pa hpa
      · have hu : planRemote disk ((k, w) :: rest) =
            (k, FileUpdateType.MODIFY) :: planRemote disk rest := by
          simp [planRemote, hd, hw]
        rw [hu] at hpa
        rcases List.mem_cons.mp hpa with heq | hmem
        · rw [heq]
          intro hc
          cases hc
        · exact ih pa hmem

theorem planDelete_actions (rk : List Path) (lr : List (Path × Digest)) :
    ∀ pa ∈ planDelete rk lr, pa.2 = FileUpdateType.DELETE := by
  induction lr with
  | nil => intro pa hpa; cases hpa
  | cons e rest ih =>
    obtain ⟨k, w⟩ := e
    intro pa hpa
    by_cases hk : k ∈ rk
    · have hu : planDelete rk ((k, w) :: rest) = planDelete rk rest := by
        simp [planDelete, hk]
      rw [hu] at hpa
      exact ih pa hpa
    · have hu : planDelete rk ((k, w) :: rest) =
          (k, FileUpdateType.DELETE) :: planDelete rk rest := by
        simp [planDelete, hk]
      rw [hu] at hpa
      rcases List.mem_cons.mp hpa with heq | hmem
      · rw [heq]
      · exact ih pa hmem

/-- C5 (amended): the apply phase is a single pass over the plan in dict
order; since the planner emits every New/Modify entry before every Delete
entry, all file writes land on disk before any deletion happens — the
reverse of the delete-first ordering the claim states.  The event trace of
any run over a planner-produced plan has every write preceding every
removal. -/
theorem apply_writes_precede_removes
    (remote localRecord : List (Path × Digest)) (disk : Path → Option Digest)
    (nf : Path → Option Digest) (wr : Path → Digest) (fs : FS) :
    writesThenRemoves
      (applyLoop nf wr (checkFilesToUpdate remote localRecord disk) fs).2.2 = true := by
  rw [checkFilesToUpdate]
  exact applyLoop_trace_split nf wr _ _ fs (planRemote_actions disk remote)
    (planDelete_actions (remote.map Prod.fst) localRecord)

/-- Counterexample to C5 as stated: for the planner-produced mixed plan
over `remote5`/`lr5`/`fs5` (one New file, one recorded file to delete), the
apply run's event trace is `[write n.txt, remove old.txt]` — the Delete
entry is processed after the New entry is written, so the claimed
delete-first ordering is false. -/
theorem apply_deletes_first_cex :
    removesThenWrites
      (applyLoop nf5 wr5 (checkFilesToUpdate remote5 lr5 fs5.fileDigest) fs5).2.2 = false := by
  rfl

/-- C6: if a New/Modify entry's post-write re-hash disagrees with the
expected digest, the apply loop stops at that entry: it returns failure,
the remaining plan entries (`post`) are never processed (the result does
not depend on them), and nothing is reverted — the final state is exactly
the state reached after the prefix `pre` was applied and the mismatching
file was written, and the trace is the prefix trace plus that one write. -/
theorem applyLoop_digest_mismatch_aborts (nf : Path → Option Digest) (wr : Path → Digest) :
    ∀ (pre post : List (Path × FileUpdateType)) (p : Path) (a : FileUpdateType)
      (fs0 fs1 fs2 : FS) (trPre : List Event) (d : Digest),
      applyLoop nf wr pre fs0 = (true, fs1, trPre) →
      a ≠ FileUpdateType.DELETE →
      openWrite (if a = FileUpdateType.NEW then (createSubDirectories p fs1).1 else fs1) p (wr p)
        = Except.ok fs2 →
      nf p = some d →
      wr p ≠ d →
      applyLoop nf wr (pre ++ (p, a) :: post) fs0 = (false, fs2, trPre ++ [Event.write p]) := by
  intro pre
  induction pre with
  | nil =>
    intro post p a fs0 fs1 fs2 trPre d hpre ha hopen hnf hmm
    simp only [applyLoop] at hpre
    injection hpre with h1 h2
    injection h2 with h3 h4
    subst h3
    subst h4
    have happly : applyEntry nf wr p a fs0 = (false, fs2, [Event.write p]) := by
      cases a with
      | DELETE => exact absurd rfl ha
      | NEW =>
        have hopen2 : openWrite ((createSubDirectories p fs0).1) p (wr p) = Except.ok fs2 := by
          simpa using hopen
        simp [applyEntry, hopen2, hnf, hmm]
      | MODIFY =>
        have hopen2 : openWrite fs0 p (wr p) = Except.ok fs2 := by
          simpa using hopen
        simp [applyEntry, hopen2, hnf, hmm]
    simp [applyLoop, happly]
  | cons e rest ih =>
    intro post p a fs0 fs1 fs2 trPre d hpre ha hopen hnf hmm
    rcases happ : applyEntry nf wr e.1 e.2 fs0 with ⟨b, fsE, trE⟩
    cases b with
    | false =>
      simp only [applyLoop, happ] at hpre
      simp at hpre
    | true =>
      simp only [applyLoop, happ, if_true] at hpre
      rcases hR : applyLoop nf wr rest fsE with ⟨bR, fsR, trR⟩
      rw [hR] at hpre
      dsimp only at hpre
      injection hpre with h1 h2
      injection h2 with h3 h4
      subst h1
      subst h3
      have hx := ih post p a fsE fsR fs2 trR d hR ha hopen hnf hmm
      have hx2 : applyLoop nf wr (rest.append ((p, a) :: post)) fsE =
          (false, fs2, trR ++ [Event.write p]) := hx
      simp only [List.cons_append, applyLoop, happ, if_true, hx, hx2]
      rw [← h4, List.append_assoc]

/-- Witness for C6: a concrete Modify entry whose on-disk result hashes to
the wrong digest fails the one-entry apply run, keeping the written state. -/
theorem applyLoop_digest_mismatch_aborts_witness :
    applyLoop nf6w wr6w [((["x"]), FileUpdateType.MODIFY)] fs6w =
      (false, fs6wAfter, [Event.write (["x"])]) :=
  applyLoop_digest_mismatch_aborts nf6w wr6w [] [] (["x"]) FileUpdateType.MODIFY
    fs6w fs6w fs6wAfter [] ("good") rfl (by decide) rfl rfl (by decide)

/-- C7: the code contradicts the manifest-validation claim.  `doc7ok`,
whose `symlinks` field is the integer 42, passes validation (the symlinks
type check in the source sits beneath the `dependencies` raise statement
and is unreachable) and is served by `getInstanceInformation`; and a
document that fails validation (`doc7bad`) still replaces the cached
`instanceInfo` before the failure is reported, so the cached state after
the failed fetch differs from the prior cached document. -/
theorem manifest_validation_hole :
    validateInstanceInfo doc7ok = true ∧
    (getInstanceInformation 100 doc7ok s7).1 = some doc7ok ∧
    (getInstanceInformationStep doc7bad s7).1 = false ∧
    (getInstanceInformationStep doc7bad s7).2.instanceInfo = some doc7bad ∧
    (getInstanceInformationStep doc7bad s7).2.instanceInfo ≠ s7.instanceInfo := by
  refine ⟨rfl, rfl, rfl, rfl, ?_⟩
  intro h
  exact Json.noConfusion (Option.some.inj h)

theorem versionLt_trans {a b c : Rat × Int} (h1 : versionLt a b) (h2 : versionLt b c) :
    versionLt a c := by
  rcases h1 with h1 | ⟨he1, hl1⟩
  · rcases h2 with h2 | ⟨he2, hl2⟩
    · exact Or.inl (lt_trans h1 h2)
    · exact Or.inl (by rw [← he2]; exact h1)
  · rcases h2 with h2 | ⟨he2, hl2⟩
    · exact Or.inl (by rw [he1]; exact h2)
    · exact Or.inr ⟨he1.trans he2, lt_trans hl1 hl2⟩

theorem versionLe_trans {a b c : Rat × Int} (h1 : versionLe a b) (h2 : versionLe b c) :
    versionLe a c := by
  rcases h1 with h1 | rfl
  · rcases h2 with h2 | rfl
    · exact Or.inl (versionLt_trans h1 h2)
    · exact Or.inl h1
  · exact h2

theorem getNewestVersionStep_files (s : NewestState) (v : Rat) (r : Int)
    (f : List (Path × Digest)) (sl : List Path) (hf : s.newestFiles ≠ none) :
    (getNewestVersionStep s v r f sl).newestFiles ≠ none := by
  unfold getNewestVersionStep
  split_ifs with hcond
  · simp
  · exact hf

theorem getNewestVersionStep_symlinks (s : NewestState) (v : Rat) (r : Int)
    (f : List (Path × Digest)) (sl : List Path) (hs : s.newestSymlinks ≠ none) :
    (getNewestVersionStep s v r f sl).newestSymlinks ≠ none := by
  unfold getNewestVersionStep
  split_ifs with hcond
  · simp
  · exact hs

theorem getNewestVersionStep_mono (s : NewestState) (v : Rat) (r : Int)
    (f : List (Path × Digest)) (sl : List Path) (hf : s.newestFiles ≠ none)
    (hs : s.newestSymlinks ≠ none) :
    versionLe s.identity (getNewestVersionStep s v r f sl).identity := by
  unfold getNewestVersionStep
  split_ifs with hcond
  · rcases hcond with h | h | h | h
    · exact Or.inl (Or.inl h)
    · exact Or.inl (Or.inr ⟨h.2.symm, h.1⟩)
    · exact absurd h hf
    · exact absurd h hs
  · exact Or.inr rfl

theorem runChecks_mono (checks : List (Rat × Int × List (Path × Digest) × List Path)) :
    ∀ (s : NewestState), s.newestFiles ≠ none → s.newestSymlinks ≠ none →
      versionLe s.identity (runChecks s checks).identity := by
  induction checks with
  | nil => intro s hf hs; exact Or.inr rfl
  | cons c rest ih =>
    intro s hf hs
    exact versionLe_trans (getNewestVersionStep_mono s c.1 c.2.1 c.2.2.1 c.2.2.2 hf hs)
      (ih (getNewestVersionStep s c.1 c.2.1 c.2.2.1 c.2.2.2)
        (getNewestVersionStep_files s c.1 c.2.1 c.2.2.1 c.2.2.2 hf)
        (getNewestVersionStep_symlinks s c.1 c.2.1 c.2.2.1 c.2.2.2 hs))

/-- C8: the newest-version bookkeeping.  The remembered state is
overwritten only if the fetched identity is strictly newer under the
lexicographic order with version primary, or no newest files/symlinks were
recorded yet; once a record exists, a fetch with an older or equal identity
leaves the state completely unchanged, and the remembered identity is
monotonically non-decreasing across any sequence of successful checks. -/
theorem newestVersion_bookkeeping (s : NewestState) :
    (∀ v r f sl, getNewestVersionStep s v r f sl ≠ s →
      (versionLt s.identity (v, r) ∨ s.newestFiles = none ∨ s.newestSymlinks = none)) ∧
    (s.newestFiles ≠ none → s.newestSymlinks ≠ none →
      (∀ v r f sl, ¬ versionLt s.identity (v, r) → getNewestVersionStep s v r f sl = s) ∧
      (∀ checks, versionLe s.identity (runChecks s checks).identity)) := by
  constructor
  · intro v r f sl hne
    by_cases hcond : s.newestVersion < v ∨ (s.newestRev < r ∧ v = s.newestVersion)
        ∨ s.newestFiles = none ∨ s.newestSymlinks = none
    · rcases hcond with h | h | h | h
      · exact Or.inl (Or.inl h)
      · exact Or.inl (Or.inr ⟨h.2.symm, h.1⟩)
      · exact Or.inr (Or.inl h)
      · exact Or.inr (Or.inr h)
    · refine absurd ?_ hne
      unfold getNewestVersionStep
      rw [if_neg hcond]
  · intro hf hs
    constructor
    · intro v r f sl hnl
      unfold getNewestVersionStep
      rw [if_neg]
      intro hcond
      rcases hcond with h | h | h | h
      · exact hnl (Or.inl h)
      · exact hnl (Or.inr ⟨h.2.symm, h.1⟩)
      · exact hf h
      · exact hs h
    · intro checks
      exact runChecks_mono checks s hf hs

/-- Witness for C8: with identity (2, 3) recorded, fetching the older
identity (2, 1) leaves the remembered state unchanged. -/
theorem newestVersion_bookkeeping_witness :
    getNewestVersionStep nw8 2 1 [] [] = nw8 :=
  ((newestVersion_bookkeeping nw8).2 (by decide) (by decide)).1 2 1 [] [] (by decide)

theorem closeHandles_self (l : List Path) : closeHandles l l = [] := by
  rw [closeHandles, List.filter_eq_nil_iff]
  intro a ha
  simp [ha]

theorem downloadPhase_fails (download : Path → Digest → Option (List Nat))
    (eo : Path → Digest) :
    ∀ (plan : List (Path × FileUpdateType)) (acc : List (Path × List Nat))
      (p : Path) (a : FileUpdateType), (p, a) ∈ plan → a ≠ FileUpdateType.DELETE →
      download p (eo p) = none →
      (downloadPhase download eo plan acc).1 = none ∧
      (downloadPhase download eo plan acc).2 = [] := by
  intro plan
  induction plan with
  | nil => intro acc p a hm; cases hm
  | cons e rest ih =>
    intro acc p a hm ha hdl
    obtain ⟨q, b⟩ := e
    rcases List.mem_cons.mp hm with heq | hmem
    · injection heq with h1 h2
      subst h1
      subst h2
      cases a with
      | DELETE => exact absurd rfl ha
      | NEW => simp [downloadPhase, hdl, closeHandles_self]
      | MODIFY => simp [downloadPhase, hdl, closeHandles_self]
    · cases b with
      | DELETE => simpa [downloadPhase] using ih acc p a hmem ha hdl
      | NEW =>
        cases hq : download q (eo q) with
        | none => simp [downloadPhase, hq, closeHandles_self]
        | some c => simpa [downloadPhase, hq] using ih (acc ++ [(q, c)]) p a hmem ha hdl
      | MODIFY =>
        cases hq : download q (eo q) with
        | none => simp [downloadPhase, hq, closeHandles_self]
        | some c => simpa [downloadPhase, hq] using ih (acc ++ [(q, c)]) p a hmem ha hdl

/-- C9: if any required (New/Modify) download of the cycle fails,
`updateInstance` returns failure before the apply loop runs: the filesystem
is exactly the input state (no file written or deleted, no directory
changed) and no temporary buffer of the cycle is left open — the failure
path closes every already-downloaded handle. -/
theorem updateInstance_download_failure_aborts
    (remote localRecord : List (Path × Digest))
    (download : Path → Digest → Option (List Nat)) (wr : Path → Digest) (fs : FS)
    (hperm : checkFilePermissions (checkFilesToUpdate remote localRecord fs.fileDigest) fs
      = true)
    (p : Path) (a : FileUpdateType)
    (hmem : (p, a) ∈ checkFilesToUpdate remote localRecord fs.fileDigest)
    (ha : a ≠ FileUpdateType.DELETE)
    (hdl : download p (remoteDigestOf remote p) = none) :
    updateInstance remote localRecord download wr fs = (false, fs, []) := by
  have hne : checkFilesToUpdate remote localRecord fs.fileDigest ≠ [] :=
    List.ne_nil_of_mem hmem
  have hdp := downloadPhase_fails download (remoteDigestOf remote) _ [] p a hmem ha hdl
  simp only [updateInstance]
  rw [if_neg hne, if_pos hperm]
  simp [hdp.1, hdp.2]

/-- Witness for C9: one New file whose download fails makes the run return
failure with the filesystem unchanged and no handle open. -/
theorem updateInstance_download_failure_aborts_witness :
    updateInstance remote9 [] dl9 wr9 fs9 = (false, fs9, []) :=
  updateInstance_download_failure_aborts remote9 [] dl9 wr9 fs9 (by decide)
    (["x"]) FileUpdateType.NEW (by decide) (by decide) rfl

theorem planRemote_nil_of_match (disk : Path → Option Digest)
    (remote : List (Path × Digest)) (h : ∀ pd ∈ remote, disk pd.1 = some pd.2) :
    planRemote disk remote = [] := by
  induction remote with
  | nil => rfl
  | cons e rest ih =>
    obtain ⟨k, w⟩ := e
    have hd := h (k, w) (List.mem_cons_self _ _)
    simp only at hd
    simp [planRemote, hd, ih (fun pd hpd => h pd (List.mem_cons_of_mem _ hpd))]

theorem planDelete_nil_of_subset_keys (rk : List Path) (lr : List (Path × Digest))
    (h : ∀ pd ∈ lr, pd.1 ∈ rk) : planDelete rk lr = [] := by
  induction lr with
  | nil => rfl
  | cons e rest ih =>
    obtain ⟨k, w⟩ := e
    have hk := h (k, w) (List.mem_cons_self _ _)
    simp only at hk
    simp [planDelete, hk, ih (fun pd hpd => h pd (List.mem_cons_of_mem _ hpd))]

/-- C10: when every remote file is already on disk with its expected digest
and every previously recorded file is still listed remotely, the plan is
empty and `updateInstance` returns success immediately: the result is the
same for every download oracle (no file content is downloaded), the
filesystem is unchanged, and no handle is opened. -/
theorem updateInstance_empty_plan_no_effect
    (remote localRecord : List (Path × Digest)) (fs : FS)
    (hdisk : ∀ pd ∈ remote, fs.fileDigest pd.1 = some pd.2)
    (hlr : ∀ pd ∈ localRecord, pd.1 ∈ remote.map Prod.fst) :
    checkFilesToUpdate remote localRecord fs.fileDigest = [] ∧
    ∀ download wr, updateInstance remote localRecord download wr fs = (true, fs, []) := by
  have hplan : checkFilesToUpdate remote localRecord fs.fileDigest = [] := by
    rw [checkFilesToUpdate, planRemote_nil_of_match _ _ hdisk,
      planDelete_nil_of_subset_keys _ _ hlr]
    rfl
  refine ⟨hplan, fun download wr => ?_⟩
  simp [updateInstance, hplan]

/-- Witness for C10: an up-to-date concrete state yields success with no
filesystem change and no open handle. -/
theorem updateInstance_empty_plan_no_effect_witness :
    updateInstance remote10 lr10 dl10 wr10 fs10 = (true, fs10, []) :=
  (updateInstance_empty_plan_no_effect remote10 lr10 fs10 (by decide) (by decide)).2 dl10 wr10

/-- C4: the code contradicts the audit-soundness claim.  With the instance
root an existing non-writable directory and nothing below it, the audit
passes the plan `a/b.txt → New` (the multi-component NEW branch probes only
components that already exist and never the instance root), while the same
audit rejects a single-component NEW entry (whose branch does check the
root); applying the passed entry then hits a permission error: creating the
directory `a` is denied and the entry fails. -/
theorem audit_hole_root_unchecked :
    checkFilePermissions plan4 fs4 = true ∧
    checkFilePermissions [(["c.txt"], FileUpdateType.NEW)] fs4 = false ∧
    (createSubDirectories path4 fs4).2 = some FsErr.permDenied ∧
    (applyEntry nf4 wr4 path4 FileUpdateType.NEW fs4).1 = false := by
  refine ⟨rfl, rfl, rfl, rfl⟩

end Rinstaller
